import Mathlib

/-!
Verification of the olympos kernel core (interrupt dispatch, bitmap heap
allocator, physical frame allocator) against its specification.

The definitions below are a shallow embedding of the C sources:
`src/kernel/arch/i386/isr.c`, `irq.c`, `pic.c`, `kheap.c`, `paging.c`.
Machine integers (uint8 / uint32 / size_t on this 32-bit target) are
modelled as `Nat` with an explicit `% 2^32` (or an 8-bit mask) wherever
the C arithmetic can wrap.  Arrays are modelled as total functions from
index to stored value.  Side effects (handler invocation, port output,
panic) are modelled as explicit event traces.
-/

set_option maxRecDepth 10000

namespace Olympos

/-! ## Interrupt dispatch (isr.c, irq.c, pic.c)

Observable effects of a dispatch: calling a registered handler, writing
the end-of-interrupt command to the master or slave PIC command port
(`outb(PIC1_COMMAND, PIC_EOI)` / `outb(PIC2_COMMAND, PIC_EOI)`), or
panicking (diagnostic print followed by a permanent `cli; hlt` loop).
-/

inductive KEvent where
  | handlerCall (n : Nat)
  | eoiMaster
  | eoiSlave
  | panicEvt
deriving DecidableEq, Repr

/-- `pic_send_eoi` from pic.c: for irq >= 8 write EOI to the slave PIC
command port, then always write EOI to the master PIC command port. -/
def pic_send_eoi (irq : Nat) : List KEvent :=
  (if 8 ≤ irq then [KEvent.eoiSlave] else []) ++ [KEvent.eoiMaster]

/-- `irq_handler` from irq.c.  `handlers i = true` models a non-NULL
entry in the `irq_handlers[16]` table.  Returns the event trace:
if `32 <= int_no < 48`, call the registered handler (if any) for line
`int_no - 32` and send EOI; otherwise nothing happens. -/
def irq_handler (handlers : Nat → Bool) (int_no : Nat) : List KEvent :=
  if 32 ≤ int_no ∧ int_no < 48 then
    let irq := int_no - 32
    (if handlers irq then [KEvent.handlerCall irq] else []) ++ pic_send_eoi irq
  else []

/-- `isr_handler` from isr.c.  `handlers i = true` models a non-NULL
entry in the `isr_handlers[32]` table.  For `int_no >= 32` it panics
("Invalid ISR number"); for `int_no < 32` it calls the registered
handler if present and otherwise panics with the exception message. -/
def isr_handler (handlers : Nat → Bool) (int_no : Nat) : List KEvent :=
  if 32 ≤ int_no then [KEvent.panicEvt]
  else if handlers int_no then [KEvent.handlerCall int_no]
  else [KEvent.panicEvt]

/-! ## Bitmap heap allocator (kheap.c)

`HEAP_BLOCK_SIZE = 4096`, `HEAP_BLOCKS_MAX = 2048`, `BITMAP_SIZE = 256`.
The byte array `heap_bitmap[256]` is modelled as a function from byte
index to stored byte; addresses and `size_t`/`uint32_t` arithmetic are
`Nat` with an explicit `% 2^32` where the C computation wraps.  The
heap memory holding the hidden per-allocation header words is modelled
as a function from (byte) address to the 32-bit word stored there. -/

def U32 : Nat := 4294967296

/-- `is_block_used` from kheap.c: test bit `block_idx % 8` of byte
`block_idx / 8` of the heap bitmap. -/
def is_block_used (bm : Nat → Nat) (block_idx : Nat) : Bool :=
  Nat.testBit (bm (block_idx / 8)) (block_idx % 8)

/-- `mark_block_used` from kheap.c:
`heap_bitmap[idx/8] |= (1 << (idx%8))`. -/
def mark_block_used (bm : Nat → Nat) (block_idx : Nat) : Nat → Nat :=
  Function.update bm (block_idx / 8)
    (bm (block_idx / 8) ||| (1 <<< (block_idx % 8)))

/-- `mark_block_free` from kheap.c:
`heap_bitmap[idx/8] &= ~(1 << (idx%8))`; on the uint8 array entry the
complement of `1 << bit` truncates to `0xFF ^ (1 << bit)`. -/
def mark_block_free (bm : Nat → Nat) (block_idx : Nat) : Nat → Nat :=
  Function.update bm (block_idx / 8)
    (bm (block_idx / 8) &&& (255 ^^^ (1 <<< (block_idx % 8))))

/-- The inner loop of `find_free_blocks`: the first `j < count` with
`i + j < HEAP_BLOCKS_MAX` at which block `i + j` is in use (the loop
exits at the first `j` with `i + j >= HEAP_BLOCKS_MAX`, and every later
`j` also fails that bound, so the combined test is equivalent). -/
def first_used (bm : Nat → Nat) (i count : Nat) : Option Nat :=
  (List.range count).find? (fun j => decide (i + j < 2048) && is_block_used bm (i + j))

/-- The outer loop of `find_free_blocks`, with explicit fuel equal to
the remaining number of outer-loop iterations (the loop index `i`
strictly increases each iteration, so `2048` iterations always
suffice).  On finding a used block at offset `j` the loop skips to
`i + j + 1` (the C writes `i += j` and the `for` increment adds 1). -/
def find_free_blocks_aux (bm : Nat → Nat) (count : Nat) : Nat → Nat → Int
  | _, 0 => -1
  | i, fuel + 1 =>
    if i < 2048 then
      match first_used bm i count with
      | some j => find_free_blocks_aux bm count (i + j + 1) fuel
      | none =>
        if i + count ≤ 2048 then Int.ofNat i
        else find_free_blocks_aux bm count (i + 1) fuel
    else -1

/-- `find_free_blocks` from kheap.c: first-fit scan with skip-ahead
for `count` contiguous free blocks; `-1` on failure. -/
def find_free_blocks (bm : Nat → Nat) (count : Nat) : Int :=
  find_free_blocks_aux bm count 0 2048

/-- Allocator state: the block bitmap (byte-indexed), the heap start
address, the running counter of allocated blocks, and the heap memory
words (the hidden headers written by `kmalloc`). -/
structure KHeapState where
  heap_bitmap : Nat → Nat
  heap_start : Nat
  blocks_used : Nat
  heap_mem : Nat → Nat

/-- Alignment step of `kheap_init`:
`(addr + HEAP_BLOCK_SIZE - 1) & ~(HEAP_BLOCK_SIZE - 1)` on uint32.
The addition wraps modulo 2^32 and the mask clears the low 12 bits,
i.e. rounds down to a multiple of 4096. -/
def align_up_4096 (addr : Nat) : Nat :=
  ((addr + 4095) % U32) / 4096 * 4096

/-- `kheap_init` from kheap.c: heap start is `elf_sections_end` rounded
up to a block boundary; the bitmap is cleared and the counter zeroed.
The initial contents `mem` of heap memory are not touched. -/
def kheap_init (elf_sections_end : Nat) (mem : Nat → Nat) : KHeapState :=
  { heap_bitmap := fun _ => 0
    heap_start := align_up_4096 elf_sections_end
    blocks_used := 0
    heap_mem := mem }

/-- The marking loop of `kmalloc`: `mark_block_used(start + i)` for
`i = 0 .. n-1`. -/
def mark_run_used (bm : Nat → Nat) (start : Nat) : Nat → (Nat → Nat)
  | 0 => bm
  | n + 1 => mark_block_used (mark_run_used bm start n) (start + n)

/-- The freeing loop of `kfree`: `mark_block_free(start + i)` for
`i = 0 .. n-1`. -/
def free_run (bm : Nat → Nat) (start : Nat) : Nat → (Nat → Nat)
  | 0 => bm
  | n + 1 => mark_block_free (free_run bm start n) (start + n)

/-- The block count `kmalloc` computes:
`total_size = size + 4` on 32-bit `size_t`, then
`(total_size + HEAP_BLOCK_SIZE - 1) / HEAP_BLOCK_SIZE`, both additions
wrapping modulo 2^32. -/
def kmalloc_blocks_needed (size : Nat) : Nat :=
  (((size + 4) % U32 + 4095) % U32) / 4096

/-- The block start address `kmalloc` computes:
`heap_start + start_block * HEAP_BLOCK_SIZE` on uint32.  The returned
pointer is this address plus 4 (skipping the header word); a `none`
result below models a NULL return. -/
def kmalloc_ptr (s : KHeapState) (size : Nat) : Nat :=
  (s.heap_start + (find_free_blocks s.heap_bitmap (kmalloc_blocks_needed size)).toNat * 4096) % U32

/-- `kmalloc` from kheap.c (cont.): reject `size = 0`, a block count
above 2048, or a failed search; otherwise mark the found run used,
store the header word at the run start, bump the counter and return
the address 4 past the run start. -/
def kmalloc (s : KHeapState) (size : Nat) : KHeapState × Option Nat :=
  if size = 0 then (s, none)
  else if 2048 < kmalloc_blocks_needed size then (s, none)
  else if find_free_blocks s.heap_bitmap (kmalloc_blocks_needed size) < 0 then (s, none)
  else
    ({ heap_bitmap := mark_run_used s.heap_bitmap
         (find_free_blocks s.heap_bitmap (kmalloc_blocks_needed size)).toNat
         (kmalloc_blocks_needed size)
       heap_start := s.heap_start
       blocks_used := (s.blocks_used + kmalloc_blocks_needed size) % U32
       heap_mem := Function.update s.heap_mem (kmalloc_ptr s size) (kmalloc_blocks_needed size) },
     some ((kmalloc_ptr s size + 4) % U32))

/-- The header address `kfree` computes: `((uint32_t*) ptr) - 1`,
i.e. `ptr - 4` on uint32. -/
def kfree_count_ptr (ptr : Nat) : Nat :=
  (ptr + U32 - 4) % U32

/-- The stored block count `kfree` reads from the header word. -/
def kfree_blocks_to_free (s : KHeapState) (ptr : Nat) : Nat :=
  s.heap_mem (kfree_count_ptr ptr)

/-- The start block index `kfree` computes:
`(block_addr - heap_start) / HEAP_BLOCK_SIZE`. -/
def kfree_start_block (s : KHeapState) (ptr : Nat) : Nat :=
  (kfree_count_ptr ptr - s.heap_start) / 4096

/-- `kfree` from kheap.c.  NULL, a header address below the heap start,
a start block index at or past `HEAP_BLOCKS_MAX`, or a stored count
outside `[1, HEAP_BLOCKS_MAX]` are rejected without touching the
state; otherwise the run is cleared in the bitmap and the counter is
decremented (uint32 subtraction, wrapping). -/
def kfree (s : KHeapState) (ptr : Nat) : KHeapState :=
  if ptr = 0 then s
  else if kfree_count_ptr ptr < s.heap_start then s
  else if 2048 ≤ kfree_start_block s ptr then s
  else if kfree_blocks_to_free s ptr = 0 ∨ 2048 < kfree_blocks_to_free s ptr then s
  else
    { heap_bitmap := free_run s.heap_bitmap (kfree_start_block s ptr) (kfree_blocks_to_free s ptr)
      heap_start := s.heap_start
      blocks_used := (s.blocks_used + U32 - kfree_blocks_to_free s ptr) % U32
      heap_mem := s.heap_mem }

/-- The list of block indices the freeing loop of `kfree` passes to
`mark_block_free` (empty on every rejected-input path). -/
def kfree_freed_blocks (s : KHeapState) (ptr : Nat) : List Nat :=
  if ptr = 0 then []
  else if kfree_count_ptr ptr < s.heap_start then []
  else if 2048 ≤ kfree_start_block s ptr then []
  else if kfree_blocks_to_free s ptr = 0 ∨ 2048 < kfree_blocks_to_free s ptr then []
  else (List.range (kfree_blocks_to_free s ptr)).map (fun i => kfree_start_block s ptr + i)

/-- The number of set bits in the 2048-bit heap block bitmap. -/
def used_count (bm : Nat → Nat) : Nat :=
  ((Finset.range 2048).filter (fun i => is_block_used bm i = true)).card

/-- The heap allocator invariant: the number of set bits in the block
bitmap equals the running counter `blocks_used`. -/
def heap_inv (s : KHeapState) : Prop :=
  used_count s.heap_bitmap = s.blocks_used

instance (s : KHeapState) : Decidable (heap_inv s) := by
  unfold heap_inv; infer_instance

/-- A single-block `kmalloc(8)` step, given the result of the
first-fit search and absence of address wrap-around: marks the found
block, stores the header word 1 at its start, bumps the counter and
returns the address 4 past the block start. -/
lemma kmalloc8_eq (s : KHeapState) (k : Nat)
    (hfind : find_free_blocks s.heap_bitmap 1 = Int.ofNat k)
    (hlt : s.heap_start + k * 4096 + 4 < U32) :
    kmalloc s 8 =
      ({ heap_bitmap := mark_run_used s.heap_bitmap k 1
         heap_start := s.heap_start
         blocks_used := (s.blocks_used + 1) % U32
         heap_mem := Function.update s.heap_mem (s.heap_start + k * 4096) 1 },
       some (s.heap_start + k * 4096 + 4)) := by
  have hbn : kmalloc_blocks_needed 8 = 1 := by decide
  have hptr : (s.heap_start + k * 4096) % U32 = s.heap_start + k * 4096 :=
    Nat.mod_eq_of_lt (by omega)
  have hptr4 : (s.heap_start + k * 4096 + 4) % U32 = s.heap_start + k * 4096 + 4 :=
    Nat.mod_eq_of_lt (by omega)
  simp only [kmalloc, kmalloc_ptr, hbn, hfind]
  rw [if_neg (by omega : ¬ (8 = 0)), if_neg (by omega : ¬ (2048 < 1)),
    if_neg (show ¬ (Int.ofNat k < 0) from Int.not_lt.mpr (Int.ofNat_nonneg k))]
  have hk : (Int.ofNat k).toNat = k := rfl
  simp only [hk, hptr, hptr4]

/-! ## Theorems about interrupt dispatch -/

/-- C1 counterexample: the hardware-line dispatcher `irq_handler`,
given vector 48 (outside the dispatch range) with no handler
registered, produces no effect at all — in particular no panic — so
dispatching an out-of-range vector there IS a silent no-op,
contradicting the claim that it fails fatally. -/
theorem irq_handler_silent_at_48 :
    irq_handler (fun _ => false) 48 = [] ∧
    KEvent.panicEvt ∉ irq_handler (fun _ => false) 48 := by
  decide

/-- C1 (amended): a vector `v ≥ 32` arriving at the exception
dispatcher `isr_handler` fails fatally (panic: diagnostic followed by
permanent halt); a vector `v < 32` or `v ≥ 48` arriving at the
hardware-line dispatcher `irq_handler` is silently ignored: no handler
call, no acknowledgment, no diagnostic — a silent no-op. -/
theorem dispatch_out_of_range (handlers : Nat → Bool) (v : Nat) :
    (32 ≤ v → isr_handler handlers v = [KEvent.panicEvt]) ∧
    (v < 32 ∨ 48 ≤ v → irq_handler handlers v = []) := by
  constructor
  · intro h
    rw [isr_handler, if_pos h]
  · intro h
    rw [irq_handler, if_neg (by omega)]

/-- Witness for `dispatch_out_of_range` at vectors 33, 48 and 5. -/
theorem dispatch_out_of_range_witness :
    isr_handler (fun _ => false) 33 = [KEvent.panicEvt] ∧
    irq_handler (fun _ => false) 48 = [] ∧
    irq_handler (fun _ => false) 5 = [] :=
  ⟨(dispatch_out_of_range (fun _ => false) 33).1 (by decide),
   (dispatch_out_of_range (fun _ => false) 48).2 (Or.inr (by decide)),
   (dispatch_out_of_range (fun _ => false) 5).2 (Or.inl (by decide))⟩

/-- C7: for every line `L < 16`, dispatching vector `32 + L` invokes
the registered handler (if any) and then acknowledges exactly once:
master alone for `L < 8`, slave then master for `L ≥ 8`.  With no
handler registered for `L` the trace is exactly the acknowledgment —
no handler call and no panic. -/
theorem irq_dispatch_ack (handlers : Nat → Bool) (L : Nat) (hL : L < 16) :
    irq_handler handlers (32 + L)
      = (if handlers L then [KEvent.handlerCall L] else []) ++ pic_send_eoi L ∧
    (handlers L = false →
      irq_handler handlers (32 + L)
        = (if 8 ≤ L then [KEvent.eoiSlave] else []) ++ [KEvent.eoiMaster] ∧
      (∀ n, KEvent.handlerCall n ∉ irq_handler handlers (32 + L)) ∧
      KEvent.panicEvt ∉ irq_handler handlers (32 + L)) := by
  have hrw : irq_handler handlers (32 + L)
      = (if handlers L then [KEvent.handlerCall L] else []) ++ pic_send_eoi L := by
    rw [irq_handler, if_pos (by omega : 32 ≤ 32 + L ∧ 32 + L < 48)]
    simp
  refine ⟨hrw, fun hnone => ?_⟩
  rw [hrw, hnone]
  refine ⟨by simp [pic_send_eoi], fun n => ?_, ?_⟩ <;>
    simp [pic_send_eoi]

/-- Witness for `irq_dispatch_ack` at lines 12 (slave) and 3 (master),
with no handler registered. -/
theorem irq_dispatch_ack_witness :
    irq_handler (fun _ => false) 44 = [KEvent.eoiSlave, KEvent.eoiMaster] ∧
    irq_handler (fun _ => false) 35 = [KEvent.eoiMaster] := by
  have h12 := (irq_dispatch_ack (fun _ => false) 12 (by decide)).2 rfl
  have h3 := (irq_dispatch_ack (fun _ => false) 3 (by decide)).2 rfl
  exact ⟨by simpa using h12.1, by simpa using h3.1⟩

/-! ## Theorems about the heap allocator -/

/-- C3: on the bitmap whose byte 0 is `0x44` (blocks 2 and 6 used, all
other blocks free), the first-fit-with-skip-ahead search for 3
contiguous free blocks returns starting index 3, not 0 and not 1. -/
theorem find_free_blocks_skip_ahead :
    find_free_blocks (fun b => if b = 0 then 68 else 0) 3 = 3 ∧
    find_free_blocks (fun b => if b = 0 then 68 else 0) 3 ≠ 0 ∧
    find_free_blocks (fun b => if b = 0 then 68 else 0) 3 ≠ 1 := by
  decide

/-- The C4 round-trip scenario on an explicit fresh heap state with
aligned start `H` (no address wrap below `H + 2 * 4096`). -/
lemma kheap_roundtrip_core (H : Nat) (m : Nat → Nat) (hfit : H + 8192 ≤ U32) :
    (kmalloc ⟨fun _ => 0, H, 0, m⟩ 8).2 = some (H + 4) ∧
    (kmalloc (kmalloc ⟨fun _ => 0, H, 0, m⟩ 8).1 8).2 = some (H + 4096 + 4) ∧
    (kmalloc (kfree (kmalloc (kmalloc ⟨fun _ => 0, H, 0, m⟩ 8).1 8).1 (H + 4096 + 4)) 8).2
      = some (H + 4096 + 4) := by
  have hA : kmalloc ⟨fun _ => 0, H, 0, m⟩ 8
      = (⟨mark_run_used (fun _ => 0) 0 1, H, 1 % U32, Function.update m H 1⟩,
         some (H + 4)) := by
    have h := kmalloc8_eq ⟨fun _ => 0, H, 0, m⟩ 0
      (show find_free_blocks (fun _ => 0) 1 = Int.ofNat 0 by decide)
      (show H + 0 * 4096 + 4 < U32 by omega)
    simpa using h
  have hB : kmalloc (⟨mark_run_used (fun _ => 0) 0 1, H, 1 % U32,
        Function.update m H 1⟩ : KHeapState) 8
      = (⟨mark_run_used (mark_run_used (fun _ => 0) 0 1) 1 1, H, (1 % U32 + 1) % U32,
          Function.update (Function.update m H 1) (H + 4096) 1⟩,
         some (H + 4096 + 4)) := by
    have h := kmalloc8_eq ⟨mark_run_used (fun _ => 0) 0 1, H, 1 % U32,
        Function.update m H 1⟩ 1
      (show find_free_blocks (mark_run_used (fun _ => 0) 0 1) 1 = Int.ofNat 1 by decide)
      (show H + 1 * 4096 + 4 < U32 by omega)
    simpa [add_assoc] using h
  have hC : kfree (⟨mark_run_used (mark_run_used (fun _ => 0) 0 1) 1 1, H,
        (1 % U32 + 1) % U32,
        Function.update (Function.update m H 1) (H + 4096) 1⟩ : KHeapState)
        (H + 4096 + 4)
      = ⟨free_run (mark_run_used (mark_run_used (fun _ => 0) 0 1) 1 1) 1 1, H,
         ((1 % U32 + 1) % U32 + U32 - 1) % U32,
         Function.update (Function.update m H 1) (H + 4096) 1⟩ := by
    have hcp : kfree_count_ptr (H + 4096 + 4) = H + 4096 := by
      unfold kfree_count_ptr U32
      unfold U32 at hfit
      omega
    have hbt : kfree_blocks_to_free (⟨mark_run_used (mark_run_used (fun _ => 0) 0 1) 1 1, H,
        (1 % U32 + 1) % U32,
        Function.update (Function.update m H 1) (H + 4096) 1⟩ : KHeapState) (H + 4096 + 4) = 1 := by
      unfold kfree_blocks_to_free
      rw [hcp]
      exact Function.update_same _ _ _
    have hsb : kfree_start_block (⟨mark_run_used (mark_run_used (fun _ => 0) 0 1) 1 1, H,
        (1 % U32 + 1) % U32,
        Function.update (Function.update m H 1) (H + 4096) 1⟩ : KHeapState) (H + 4096 + 4) = 1 := by
      unfold kfree_start_block
      rw [hcp]
      show (H + 4096 - H) / 4096 = 1
      omega
    rw [kfree, hbt, hsb, hcp]
    rw [if_neg (by omega : ¬ (H + 4096 + 4 = 0)),
      if_neg (show ¬ (H + 4096 < H) by omega),
      if_neg (by omega : ¬ (2048 ≤ 1)),
      if_neg (by omega : ¬ (1 = 0 ∨ 2048 < 1))]
  have hD : kmalloc (⟨free_run (mark_run_used (mark_run_used (fun _ => 0) 0 1) 1 1) 1 1, H,
        ((1 % U32 + 1) % U32 + U32 - 1) % U32,
        Function.update (Function.update m H 1) (H + 4096) 1⟩ : KHeapState) 8
      = (⟨mark_run_used (free_run (mark_run_used (mark_run_used (fun _ => 0) 0 1) 1 1) 1 1) 1 1,
          H, (((1 % U32 + 1) % U32 + U32 - 1) % U32 + 1) % U32,
          Function.update (Function.update (Function.update m H 1) (H + 4096) 1) (H + 4096) 1⟩,
         some (H + 4096 + 4)) := by
    have h := kmalloc8_eq ⟨free_run (mark_run_used (mark_run_used (fun _ => 0) 0 1) 1 1) 1 1, H,
        ((1 % U32 + 1) % U32 + U32 - 1) % U32,
        Function.update (Function.update m H 1) (H + 4096) 1⟩ 1
      (show find_free_blocks (free_run (mark_run_used (mark_run_used (fun _ => 0) 0 1) 1 1) 1 1) 1
          = Int.ofNat 1 by decide)
      (show H + 1 * 4096 + 4 < U32 by omega)
    simpa [add_assoc] using h
  refine ⟨by rw [hA], ?_, ?_⟩
  · rw [hA]
    simp only [hB]
  · rw [hA]
    simp only [hB]
    simp only [hC, hD]

/-- C4 (amended): starting from a freshly initialized heap whose
aligned start address `H` satisfies `H + 2 * 4096 ≤ 2^32` (no uint32
address wrap in the first two blocks), `kmalloc(8)` returns `H + 4`
(block 0), a second `kmalloc(8)` returns `H + 4096 + 4` (block 1), and
after freeing the second pointer a third `kmalloc(8)` returns that
same address again (first-fit reuse of the freed run). -/
theorem kmalloc_kfree_roundtrip (e : Nat) (mem : Nat → Nat)
    (hfit : align_up_4096 e + 8192 ≤ U32) :
    (kmalloc (kheap_init e mem) 8).2 = some (align_up_4096 e + 4) ∧
    (kmalloc (kmalloc (kheap_init e mem) 8).1 8).2 = some (align_up_4096 e + 4096 + 4) ∧
    (kmalloc (kfree (kmalloc (kmalloc (kheap_init e mem) 8).1 8).1
        (align_up_4096 e + 4096 + 4)) 8).2 = some (align_up_4096 e + 4096 + 4) :=
  kheap_roundtrip_core (align_up_4096 e) mem hfit

/-- Witness for `kmalloc_kfree_roundtrip` with
`elf_sections_end = 0x106789` (heap start `0x107000`). -/
theorem kmalloc_kfree_roundtrip_witness :
    (kmalloc (kheap_init 1075081 (fun _ => 0)) 8).2 = some 1077252 ∧
    (kmalloc (kfree (kmalloc (kmalloc (kheap_init 1075081 (fun _ => 0)) 8).1 8).1
        1081348) 8).2 = some 1081348 := by
  have h := kmalloc_kfree_roundtrip 1075081 (fun _ => 0) (by decide)
  have h1 := h.1
  have h3 := h.2.2
  norm_num [align_up_4096, U32] at h1 h3
  exact ⟨h1, h3⟩

/-- C4 counterexample: with `elf_sections_end = 2^32 - 4096` the heap
start is `H = 2^32 - 4096`; the second `kmalloc(8)` returns the
wrapped address 4 (block 1 wraps past 2^32), its `kfree` is rejected
by the `block_addr < heap_start` check, and the third `kmalloc(8)`
returns block 2's address 4100, not the address the second call
returned. -/
theorem kmalloc_kfree_roundtrip_cex :
    (kmalloc (kmalloc (kheap_init 4294963200 (fun _ => 0)) 8).1 8).2 = some 4 ∧
    (kmalloc (kfree (kmalloc (kmalloc (kheap_init 4294963200 (fun _ => 0)) 8).1 8).1
        4) 8).2 = some 4100 ∧
    some (4100 : Nat) ≠ some 4 := by
  decide

/-- C5 (amended): `kmalloc(0)` returns NULL; `kmalloc` computes its
block count with wrapping 32-bit arithmetic, which agrees with the
mathematical `ceil((size + 4) / 4096)` whenever `size + 4100 ≤ 2^32`,
and in that overflow-free range a request needing more than 2048
blocks returns NULL; and every NULL return leaves the state (bitmap,
counter, memory) unchanged. -/
theorem kmalloc_reject (s : KHeapState) (size : Nat) :
    kmalloc s 0 = (s, none) ∧
    (size + 4100 ≤ U32 → 2048 < (size + 4 + 4095) / 4096 → kmalloc s size = (s, none)) ∧
    ((kmalloc s size).2 = none → (kmalloc s size).1 = s) := by
  refine ⟨by simp [kmalloc], fun hfit hbig => ?_, fun h => ?_⟩
  · have hbn : kmalloc_blocks_needed size = (size + 4 + 4095) / 4096 := by
      unfold kmalloc_blocks_needed U32
      unfold U32 at hfit
      omega
    rw [kmalloc, if_neg (show ¬ size = 0 by omega)]
    simp only [hbn]
    rw [if_pos hbig]
  · simp only [kmalloc] at h ⊢
    split_ifs at h ⊢ <;> simp_all

/-- Witness for `kmalloc_reject`: zero-size and over-capacity requests
on a concrete state are rejected with the state unchanged. -/
theorem kmalloc_reject_witness :
    kmalloc ⟨fun _ => 0, 4096, 0, fun _ => 0⟩ 0 = (⟨fun _ => 0, 4096, 0, fun _ => 0⟩, none) ∧
    kmalloc ⟨fun _ => 0, 4096, 0, fun _ => 0⟩ 8392705
      = (⟨fun _ => 0, 4096, 0, fun _ => 0⟩, none) ∧
    (kmalloc ⟨fun _ => 0, 4096, 0, fun _ => 0⟩ 0).1 = ⟨fun _ => 0, 4096, 0, fun _ => 0⟩ :=
  ⟨(kmalloc_reject ⟨fun _ => 0, 4096, 0, fun _ => 0⟩ 8392705).1,
   (kmalloc_reject ⟨fun _ => 0, 4096, 0, fun _ => 0⟩ 8392705).2.1 (by decide) (by decide),
   (kmalloc_reject ⟨fun _ => 0, 4096, 0, fun _ => 0⟩ 0).2.2 (by decide)⟩

/-- C5 counterexample: for `size = 2^32 - 5` the mathematical
`ceil((size + 4) / 4096) = 2^20` exceeds the 2048-block capacity, yet
`kmalloc` (whose 32-bit computation wraps to a block count of 0) does
not return NULL on a fresh heap. -/
theorem kmalloc_reject_cex :
    2048 < (4294967291 + 4 + 4095) / 4096 ∧
    ((kmalloc (kheap_init 1075081 (fun _ => 0)) 4294967291).2).isSome = true := by
  decide

/-- C8 (amended): on the 32-bit `size_t`, `kmalloc` computes
`total_size = size + 4` with wrap-around: for `size` in
`[2^32 - 3, 2^32 - 1]` the computed block count is 1 and on a fresh
heap the ~4 GiB request is accepted, returning a pointer backed by a
single block (block 0); for `size = 2^32 - 4` the wrapped total is 0,
the computed block count is 0, and the request is still accepted —
backed by no blocks at all. -/
theorem kmalloc_size_wraparound (size e : Nat) (mem : Nat → Nat)
    (h1 : 4294967293 ≤ size) (h2 : size < 4294967296) :
    kmalloc_blocks_needed size = 1 ∧
    ((kmalloc (kheap_init e mem) size).2).isSome = true ∧
    used_count (kmalloc (kheap_init e mem) size).1.heap_bitmap = 1 ∧
    is_block_used (kmalloc (kheap_init e mem) size).1.heap_bitmap 0 = true := by
  have hbn : kmalloc_blocks_needed size = 1 := by
    unfold kmalloc_blocks_needed U32
    omega
  have hfind : find_free_blocks (kheap_init e mem).heap_bitmap 1 = Int.ofNat 0 :=
    show find_free_blocks (fun _ => 0) 1 = Int.ofNat 0 by decide
  refine ⟨hbn, ?_, ?_, ?_⟩ <;>
    simp only [kmalloc, hbn, hfind] <;>
    rw [if_neg (show ¬ size = 0 by omega), if_neg (by omega : ¬ (2048 < 1)),
      if_neg (show ¬ (Int.ofNat 0 < 0) by decide)]
  · simp
  · show used_count (mark_run_used (fun _ => 0) (Int.ofNat 0).toNat 1) = 1
    decide
  · show is_block_used (mark_run_used (fun _ => 0) (Int.ofNat 0).toNat 1) 0 = true
    decide

/-- Witness for `kmalloc_size_wraparound` at `size = 2^32 - 2`. -/
theorem kmalloc_size_wraparound_witness :
    kmalloc_blocks_needed 4294967294 = 1 ∧
    ((kmalloc (kheap_init 1075081 (fun _ => 0)) 4294967294).2).isSome = true :=
  ⟨(kmalloc_size_wraparound 4294967294 1075081 (fun _ => 0) (by decide) (by decide)).1,
   (kmalloc_size_wraparound 4294967294 1075081 (fun _ => 0) (by decide) (by decide)).2.1⟩

/-- C8 counterexample: at `size = 2^32 - 4` the wrapped total size is
0, so the computed block count is 0 (not 1, as the claim states for
the whole range `[2^32 - 4, 2^32 - 1]`): the request is accepted but
backed by zero blocks (the bitmap stays empty). -/
theorem kmalloc_size_wraparound_cex :
    kmalloc_blocks_needed 4294967292 = 0 ∧
    ¬ kmalloc_blocks_needed 4294967292 = 1 ∧
    ((kmalloc (kheap_init 1075081 (fun _ => 0)) 4294967292).2).isSome = true ∧
    used_count (kmalloc (kheap_init 1075081 (fun _ => 0)) 4294967292).1.heap_bitmap = 0 := by
  decide

/-! ## The bitmap-population invariant (C2) -/

/-- Marking block `i` used sets exactly block `i`: the byte/bit pair
`(idx / 8, idx % 8)` determines `idx`, so no other block is touched. -/
lemma is_block_used_mark_used (bm : Nat → Nat) (i j : Nat) :
    is_block_used (mark_block_used bm i) j = (decide (j = i) || is_block_used bm j) := by
  unfold is_block_used mark_block_used
  rcases eq_or_ne j i with rfl | hne
  · simp only [Function.update_same, decide_True, Bool.true_or]
    rw [Nat.testBit_or, Nat.one_shiftLeft, Nat.testBit_two_pow]
    simp
  · rcases eq_or_ne (j / 8) (i / 8) with hd | hd
    · rw [hd, Function.update_same, Nat.testBit_or, Nat.one_shiftLeft, Nat.testBit_two_pow]
      have hm : i % 8 ≠ j % 8 := fun hm => hne (by omega)
      simp [hne, hm, hd]
    · rw [Function.update_noteq hd]
      simp [hne]

/-- Marking block `i` free clears exactly block `i`. -/
lemma is_block_used_mark_free (bm : Nat → Nat) (i j : Nat) :
    is_block_used (mark_block_free bm i) j = (!decide (j = i) && is_block_used bm j) := by
  unfold is_block_used mark_block_free
  have h255 : ∀ m : Nat, m < 8 → (255 : Nat).testBit m = true := by
    intro m hm
    have h8 : (255 : Nat) = 2 ^ 8 - 1 := by norm_num
    rw [h8, Nat.testBit_two_pow_sub_one]
    simpa using hm
  rcases eq_or_ne (j / 8) (i / 8) with hd | hd
  · rw [hd, Function.update_same, Nat.testBit_and, Nat.testBit_xor, Nat.one_shiftLeft,
      Nat.testBit_two_pow, h255 _ (Nat.mod_lt _ (by omega))]
    rcases eq_or_ne j i with rfl | hne
    · simp
    · have hm : i % 8 ≠ j % 8 := fun hm => hne (by omega)
      simp [hne, hm, hd]
  · have hne : j ≠ i := fun hji => hd (by rw [hji])
    rw [Function.update_noteq hd]
    simp [hne]

/-- Blocks used after the marking loop: the run plus what was already
used. -/
lemma is_block_used_mark_run (bm : Nat → Nat) (start n j : Nat) :
    is_block_used (mark_run_used bm start n) j
      = (decide (start ≤ j ∧ j < start + n) || is_block_used bm j) := by
  induction n with
  | zero =>
    have h : ¬ (start ≤ j ∧ j < start + 0) := by omega
    simp [mark_run_used, h]
  | succ n ih =>
    rw [mark_run_used, is_block_used_mark_used, ih, ← Bool.or_assoc]
    congr 1
    by_cases h1 : j = start + n
    · have hq : start ≤ j ∧ j < start + (n + 1) := by omega
      simp [h1, hq]
    · by_cases h2 : start ≤ j ∧ j < start + n
      · have hq : start ≤ j ∧ j < start + (n + 1) := by omega
        simp [h1, h2, hq]
      · have hq : ¬ (start ≤ j ∧ j < start + (n + 1)) := by omega
        simp [h1, h2, hq]

/-- Blocks used after the freeing loop: what was used, minus the run. -/
lemma is_block_used_free_run (bm : Nat → Nat) (start n j : Nat) :
    is_block_used (free_run bm start n) j
      = (!decide (start ≤ j ∧ j < start + n) && is_block_used bm j) := by
  induction n with
  | zero =>
    have h : decide (start ≤ j ∧ j < start + 0) = false :=
      decide_eq_false (by omega)
    show is_block_used bm j = _
    rw [h]
    simp
  | succ n ih =>
    rw [free_run, is_block_used_mark_free, ih, ← Bool.and_assoc, ← Bool.not_or]
    congr 2
    by_cases h1 : j = start + n
    · have hq : start ≤ j ∧ j < start + (n + 1) := by omega
      simp [h1, hq]
    · by_cases h2 : start ≤ j ∧ j < start + n
      · have hq : start ≤ j ∧ j < start + (n + 1) := by omega
        simp [h1, h2, hq]
      · have hq : ¬ (start ≤ j ∧ j < start + (n + 1)) := by omega
        simp [h1, h2, hq]

lemma used_count_le (bm : Nat → Nat) : used_count bm ≤ 2048 := by
  unfold used_count
  exact le_trans (Finset.card_filter_le _ _) (by simp)

/-- Marking a free in-range block used increments the population. -/
lemma used_count_mark_used (bm : Nat → Nat) (i : Nat) (hi : i < 2048)
    (hfree : is_block_used bm i = false) :
    used_count (mark_block_used bm i) = used_count bm + 1 := by
  unfold used_count
  have hset : (Finset.range 2048).filter (fun j => is_block_used (mark_block_used bm i) j = true)
      = insert i ((Finset.range 2048).filter (fun j => is_block_used bm j = true)) := by
    ext x
    simp only [Finset.mem_filter, Finset.mem_insert, Finset.mem_range,
      is_block_used_mark_used, Bool.or_eq_true, decide_eq_true_eq]
    constructor
    · rintro ⟨hx, h | h⟩
      · exact Or.inl h
      · exact Or.inr ⟨hx, h⟩
    · rintro (rfl | ⟨hx, h⟩)
      · exact ⟨hi, Or.inl rfl⟩
      · exact ⟨hx, Or.inr h⟩
  rw [hset, Finset.card_insert_of_not_mem (by simp [Finset.mem_filter, hfree])]

/-- Freeing a used in-range block decrements the population. -/
lemma used_count_mark_free (bm : Nat → Nat) (i : Nat) (hi : i < 2048)
    (hused : is_block_used bm i = true) :
    used_count (mark_block_free bm i) = used_count bm - 1 := by
  unfold used_count
  have hset : (Finset.range 2048).filter (fun j => is_block_used (mark_block_free bm i) j = true)
      = ((Finset.range 2048).filter (fun j => is_block_used bm j = true)).erase i := by
    ext x
    simp only [Finset.mem_filter, Finset.mem_erase, Finset.mem_range,
      is_block_used_mark_free, Bool.and_eq_true, Bool.not_eq_true', decide_eq_false_iff_not]
    tauto
  rw [hset, Finset.card_erase_of_mem (by simp [Finset.mem_filter, Finset.mem_range, hi, hused])]

/-- Marking a run of `n` free blocks used adds exactly `n` to the
population. -/
lemma used_count_mark_run (bm : Nat → Nat) (start n : Nat) (hn : start + n ≤ 2048)
    (hfree : ∀ j < n, is_block_used bm (start + j) = false) :
    used_count (mark_run_used bm start n) = used_count bm + n := by
  induction n with
  | zero => rfl
  | succ n ih =>
    have hcur : is_block_used (mark_run_used bm start n) (start + n) = false := by
      rw [is_block_used_mark_run]
      have h1 : ¬ (start ≤ start + n ∧ start + n < start + n) := by omega
      simp [h1, hfree n (by omega)]
    rw [mark_run_used, used_count_mark_used _ _ (by omega) hcur,
      ih (by omega) (fun j hj => hfree j (by omega))]
    omega

/-- Freeing a run of `n` used blocks removes exactly `n` from the
population. -/
lemma used_count_free_run (bm : Nat → Nat) (start n : Nat) (hn : start + n ≤ 2048)
    (hused : ∀ j < n, is_block_used bm (start + j) = true) :
    used_count (free_run bm start n) = used_count bm - n := by
  induction n with
  | zero => rfl
  | succ n ih =>
    have hcur : is_block_used (free_run bm start n) (start + n) = true := by
      rw [is_block_used_free_run]
      have h1 : ¬ (start ≤ start + n ∧ start + n < start + n) := by omega
      simp [h1, hused n (by omega)]
    rw [free_run, used_count_mark_free _ _ (by omega) hcur,
      ih (by omega) (fun j hj => hused j (by omega))]
    omega

/-- A run of `n` used in-range blocks forces the population to be at
least `n`. -/
lemma run_le_used_count (bm : Nat → Nat) (start n : Nat) (hn : start + n ≤ 2048)
    (hused : ∀ j < n, is_block_used bm (start + j) = true) :
    n ≤ used_count bm := by
  have hsub : Finset.Ico start (start + n)
      ⊆ (Finset.range 2048).filter (fun i => is_block_used bm i = true) := by
    intro x hx
    rw [Finset.mem_Ico] at hx
    rw [Finset.mem_filter, Finset.mem_range]
    refine ⟨by omega, ?_⟩
    have h := hused (x - start) (by omega)
    rwa [show start + (x - start) = x by omega] at h
  have hcard := Finset.card_le_card hsub
  simpa using hcard

/-- The inner loop returns `none` exactly when every in-range block of
the candidate window is free. -/
lemma first_used_eq_none (bm : Nat → Nat) (i count : Nat)
    (h : first_used bm i count = none) :
    ∀ j < count, i + j < 2048 → is_block_used bm (i + j) = false := by
  intro j hj hlt
  rw [first_used, List.find?_eq_none] at h
  have hx := h j (List.mem_range.mpr hj)
  simpa [hlt] using hx

/-- Soundness of the first-fit search: a returned index `k` starts a
fully free run of `count` blocks that fits inside the 2048-block heap. -/
lemma find_free_blocks_aux_spec (bm : Nat → Nat) (count : Nat) :
    ∀ (fuel i k : Nat), find_free_blocks_aux bm count i fuel = (k : Int) →
      k + count ≤ 2048 ∧ ∀ j < count, is_block_used bm (k + j) = false := by
  intro fuel
  induction fuel with
  | zero =>
    intro i k h
    rw [find_free_blocks_aux] at h
    exact absurd h (by omega)
  | succ fuel ih =>
    intro i k h
    rw [find_free_blocks_aux] at h
    by_cases hi : i < 2048
    · rw [if_pos hi] at h
      cases hfu : first_used bm i count with
      | some j =>
        simp only [hfu] at h
        exact ih _ _ h
      | none =>
        simp only [hfu] at h
        by_cases hc : i + count ≤ 2048
        · rw [if_pos hc, Int.ofNat_eq_coe] at h
          have hik : i = k := by omega
          subst hik
          exact ⟨hc, fun j hj => first_used_eq_none bm i count hfu j hj (by omega)⟩
        · rw [if_neg hc] at h
          exact ih _ _ h
    · rw [if_neg hi] at h
      exact absurd h (by omega)

lemma find_free_blocks_spec (bm : Nat → Nat) (count k : Nat)
    (h : find_free_blocks bm count = (k : Int)) :
    k + count ≤ 2048 ∧ ∀ j < count, is_block_used bm (k + j) = false :=
  find_free_blocks_aux_spec bm count 2048 0 k h

/-- C2 (amended): the invariant "number of set bits in the heap block
bitmap = blocks_used" holds after `kheap_init` and is preserved by
every `kmalloc` call; it is preserved by a `kfree` call provided the
run the call frees lies inside the 2048-block bitmap and consists
entirely of blocks currently marked used (as is the case when freeing
a live allocation).  A `kfree` whose run contains an already-free
block — e.g. a double free — breaks the invariant. -/
theorem heap_inv_preserved :
    (∀ (e : Nat) (mem : Nat → Nat), heap_inv (kheap_init e mem)) ∧
    (∀ (s : KHeapState) (size : Nat), heap_inv s → heap_inv (kmalloc s size).1) ∧
    (∀ (s : KHeapState) (ptr : Nat), heap_inv s →
      kfree_start_block s ptr + kfree_blocks_to_free s ptr ≤ 2048 →
      (∀ j < kfree_blocks_to_free s ptr,
        is_block_used s.heap_bitmap (kfree_start_block s ptr + j) = true) →
      heap_inv (kfree s ptr)) := by
  refine ⟨?_, ?_, ?_⟩
  · intro e mem
    show used_count (fun _ => 0) = 0
    decide
  · intro s size hinv
    rw [kmalloc]
    by_cases h0 : size = 0
    · rw [if_pos h0]; exact hinv
    rw [if_neg h0]
    by_cases hbig : 2048 < kmalloc_blocks_needed size
    · rw [if_pos hbig]; exact hinv
    rw [if_neg hbig]
    by_cases hneg : find_free_blocks s.heap_bitmap (kmalloc_blocks_needed size) < 0
    · rw [if_pos hneg]; exact hinv
    rw [if_neg hneg]
    obtain ⟨k, hk⟩ : ∃ k : Nat, find_free_blocks s.heap_bitmap (kmalloc_blocks_needed size)
        = (k : Int) :=
      ⟨(find_free_blocks s.heap_bitmap (kmalloc_blocks_needed size)).toNat,
       (Int.toNat_of_nonneg (Int.not_lt.mp hneg)).symm⟩
    obtain ⟨hfit, hfree⟩ := find_free_blocks_spec _ _ _ hk
    show used_count (mark_run_used s.heap_bitmap
        (find_free_blocks s.heap_bitmap (kmalloc_blocks_needed size)).toNat
        (kmalloc_blocks_needed size))
      = (s.blocks_used + kmalloc_blocks_needed size) % U32
    rw [hk]
    have hkk : ((k : Int)).toNat = k := rfl
    rw [hkk, used_count_mark_run _ _ _ hfit hfree, hinv.symm]
    have hle := used_count_le s.heap_bitmap
    rw [Nat.mod_eq_of_lt (show used_count s.heap_bitmap + kmalloc_blocks_needed size < U32 by
      unfold U32; omega)]
  · intro s ptr hinv hb hused
    rw [kfree]
    by_cases h0 : ptr = 0
    · rw [if_pos h0]; exact hinv
    rw [if_neg h0]
    by_cases h1 : kfree_count_ptr ptr < s.heap_start
    · rw [if_pos h1]; exact hinv
    rw [if_neg h1]
    by_cases h2 : 2048 ≤ kfree_start_block s ptr
    · rw [if_pos h2]; exact hinv
    rw [if_neg h2]
    by_cases h3 : kfree_blocks_to_free s ptr = 0 ∨ 2048 < kfree_blocks_to_free s ptr
    · rw [if_pos h3]; exact hinv
    rw [if_neg h3]
    show used_count (free_run s.heap_bitmap (kfree_start_block s ptr)
        (kfree_blocks_to_free s ptr))
      = (s.blocks_used + U32 - kfree_blocks_to_free s ptr) % U32
    rw [used_count_free_run _ _ _ hb hused, hinv.symm]
    have hrun := run_le_used_count s.heap_bitmap _ _ hb hused
    have hle := used_count_le s.heap_bitmap
    have hsplit : used_count s.heap_bitmap + U32 - kfree_blocks_to_free s ptr
        = U32 + (used_count s.heap_bitmap - kfree_blocks_to_free s ptr) := by omega
    rw [hsplit, Nat.add_mod_left,
      Nat.mod_eq_of_lt (show used_count s.heap_bitmap - kfree_blocks_to_free s ptr < U32 by
        unfold U32; omega)]

/-- Witness for `heap_inv_preserved`: the invariant after init, after
one allocation, and after freeing that allocation, on a concrete heap
(`elf_sections_end = 0x106789`, so the allocation returns `0x107004`
and the freed run is block 0, currently used). -/
theorem heap_inv_preserved_witness :
    heap_inv (kheap_init 1075081 (fun _ => 0)) ∧
    heap_inv (kmalloc (kheap_init 1075081 (fun _ => 0)) 8).1 ∧
    heap_inv (kfree (kmalloc (kheap_init 1075081 (fun _ => 0)) 8).1 1077252) :=
  ⟨heap_inv_preserved.1 1075081 (fun _ => 0),
   heap_inv_preserved.2.1 (kheap_init 1075081 (fun _ => 0)) 8 (by decide),
   heap_inv_preserved.2.2 (kmalloc (kheap_init 1075081 (fun _ => 0)) 8).1 1077252
     (by decide) (by decide) (by decide)⟩

/-- C2 counterexample: a double free.  On a fresh heap, allocate one
block and free it twice: the second `kfree` passes all validation
(the header word still stores count 1), re-clears the already-free
block — leaving the bitmap population at 0 — and decrements the
uint32 counter past zero to 4294967295, so the invariant fails after a
`kfree` call. -/
theorem heap_inv_double_free_cex :
    heap_inv (kfree (kmalloc (kheap_init 0 (fun _ => 0)) 8).1 4) ∧
    ¬ heap_inv (kfree (kfree (kmalloc (kheap_init 0 (fun _ => 0)) 8).1 4) 4) := by
  constructor <;> decide

/-! ## kfree validation gap (C9) -/

/-- C9: `kfree` checks `start_block < 2048` and
`1 ≤ stored count ≤ 2048`, but never `start_block + count ≤ 2048`.
On a heap starting at `0x107000` whose header word at block 2047
stores the count 2048, freeing the pointer 4 past that header passes
every check and the freeing loop passes block indices 2047 up to 4094
to `mark_block_free` — including 2048 and everything beyond the end of
the 2048-bit bitmap. -/
theorem kfree_out_of_bounds_free :
    kfree_start_block
        ⟨fun _ => 255, 1077248, 2048, fun a => if a = 1077248 + 2047 * 4096 then 2048 else 0⟩
        (1077248 + 2047 * 4096 + 4) = 2047 ∧
    kfree_blocks_to_free
        ⟨fun _ => 255, 1077248, 2048, fun a => if a = 1077248 + 2047 * 4096 then 2048 else 0⟩
        (1077248 + 2047 * 4096 + 4) = 2048 ∧
    2048 < 2047 + 2048 ∧
    kfree_freed_blocks
        ⟨fun _ => 255, 1077248, 2048, fun a => if a = 1077248 + 2047 * 4096 then 2048 else 0⟩
        (1077248 + 2047 * 4096 + 4)
      = (List.range 2048).map (fun i => 2047 + i) ∧
    2047 ∈ kfree_freed_blocks
        ⟨fun _ => 255, 1077248, 2048, fun a => if a = 1077248 + 2047 * 4096 then 2048 else 0⟩
        (1077248 + 2047 * 4096 + 4) ∧
    2048 ∈ kfree_freed_blocks
        ⟨fun _ => 255, 1077248, 2048, fun a => if a = 1077248 + 2047 * 4096 then 2048 else 0⟩
        (1077248 + 2047 * 4096 + 4) ∧
    4094 ∈ kfree_freed_blocks
        ⟨fun _ => 255, 1077248, 2048, fun a => if a = 1077248 + 2047 * 4096 then 2048 else 0⟩
        (1077248 + 2047 * 4096 + 4) := by
  have hlist : kfree_freed_blocks
      ⟨fun _ => 255, 1077248, 2048, fun a => if a = 1077248 + 2047 * 4096 then 2048 else 0⟩
      (1077248 + 2047 * 4096 + 4) = (List.range 2048).map (fun i => 2047 + i) := rfl
  refine ⟨by decide, by decide, by decide, hlist, ?_, ?_, ?_⟩
  · rw [hlist]
    exact List.mem_map.mpr ⟨0, List.mem_range.mpr (by omega), rfl⟩
  · rw [hlist]
    exact List.mem_map.mpr ⟨1, List.mem_range.mpr (by omega), rfl⟩
  · rw [hlist]
    exact List.mem_map.mpr ⟨2047, List.mem_range.mpr (by omega), rfl⟩

/-! ## Physical frame allocator (paging.c)

`FRAME_SIZE = 4096`, `NUM_FRAMES = 32768` (128 MiB).  The
`frame_bitmap` of `NUM_FRAMES / 32` uint32 words is modelled as a
function from word index to stored word. -/

/-- `frame_test` from paging.c: test bit `frame_num % 32` of word
`frame_num / 32`. -/
def frame_test (fb : Nat → Nat) (frame_num : Nat) : Bool :=
  Nat.testBit (fb (frame_num / 32)) (frame_num % 32)

/-- `frame_set` from paging.c:
`frame_bitmap[num/32] |= (1 << (num%32))`. -/
def frame_set (fb : Nat → Nat) (frame_num : Nat) : Nat → Nat :=
  Function.update fb (frame_num / 32)
    (fb (frame_num / 32) ||| (1 <<< (frame_num % 32)))

/-- `frame_clear` from paging.c:
`frame_bitmap[num/32] &= ~(1 << (num%32))`; on the uint32 word the
complement truncates to `0xFFFFFFFF ^ (1 << bit)`. -/
def frame_clear (fb : Nat → Nat) (frame_num : Nat) : Nat → Nat :=
  Function.update fb (frame_num / 32)
    (fb (frame_num / 32) &&& (4294967295 ^^^ (1 <<< (frame_num % 32))))

/-- The marking loop of `frame_bitmap_init`: `frame_set(i)` for
`i = 0 .. n-1`. -/
def frame_set_run (fb : Nat → Nat) : Nat → (Nat → Nat)
  | 0 => fb
  | n + 1 => frame_set (frame_set_run fb n) n

/-- `frame_bitmap_init` from paging.c: clear the bitmap, compute
`kernel_frames = (elf_sections_end + FRAME_SIZE - 1) / FRAME_SIZE`
(uint32 arithmetic, so the addition wraps), and mark frames
`[0, kernel_frames)` allocated. -/
def frame_bitmap_init (kernel_end : Nat) : Nat → Nat :=
  frame_set_run (fun _ => 0) (((kernel_end + 4095) % U32) / 4096)

/-- The scan loop of `frame_alloc`, with fuel equal to the remaining
number of iterations (`i` increases by 1 each time, so 32768 always
suffices): first `i < NUM_FRAMES` whose frame is free. -/
def frame_alloc_scan (fb : Nat → Nat) : Nat → Nat → Option Nat
  | _, 0 => none
  | i, fuel + 1 =>
    if i < 32768 then
      if frame_test fb i then frame_alloc_scan fb (i + 1) fuel else some i
    else none

/-- `frame_alloc` from paging.c: first-fit scan; on success mark the
frame and return its physical base address, on exhaustion return the
sentinel 0. -/
def frame_alloc (fb : Nat → Nat) : (Nat → Nat) × Nat :=
  match frame_alloc_scan fb 0 32768 with
  | some i => (frame_set fb i, i * 4096)
  | none => (fb, 0)

/-- `frame_free` from paging.c: compute the frame index from the
address; reject only indices at or past `NUM_FRAMES`, otherwise clear
the frame's bit (no alignment check, no kernel-region check). -/
def frame_free (fb : Nat → Nat) (frame_addr : Nat) : Nat → Nat :=
  if 32768 ≤ frame_addr / 4096 then fb
  else frame_clear fb (frame_addr / 4096)

/-- Setting frame `i` sets exactly frame `i`. -/
lemma frame_test_frame_set (fb : Nat → Nat) (i j : Nat) :
    frame_test (frame_set fb i) j = (decide (j = i) || frame_test fb j) := by
  unfold frame_test frame_set
  rcases eq_or_ne j i with rfl | hne
  · simp only [Function.update_same, decide_True, Bool.true_or]
    rw [Nat.testBit_or, Nat.one_shiftLeft, Nat.testBit_two_pow]
    simp
  · rcases eq_or_ne (j / 32) (i / 32) with hd | hd
    · rw [hd, Function.update_same, Nat.testBit_or, Nat.one_shiftLeft, Nat.testBit_two_pow]
      have hm : i % 32 ≠ j % 32 := fun hm => hne (by omega)
      simp [hne, hm, hd]
    · rw [Function.update_noteq hd]
      simp [hne]

/-- Clearing frame `i` clears exactly frame `i`. -/
lemma frame_test_frame_clear (fb : Nat → Nat) (i j : Nat) :
    frame_test (frame_clear fb i) j = (!decide (j = i) && frame_test fb j) := by
  unfold frame_test frame_clear
  have hmask : ∀ m : Nat, m < 32 → (4294967295 : Nat).testBit m = true := by
    intro m hm
    have h32 : (4294967295 : Nat) = 2 ^ 32 - 1 := by norm_num
    rw [h32, Nat.testBit_two_pow_sub_one]
    exact decide_eq_true hm
  rcases eq_or_ne (j / 32) (i / 32) with hd | hd
  · rw [hd, Function.update_same, Nat.testBit_and, Nat.testBit_xor, Nat.one_shiftLeft,
      Nat.testBit_two_pow, hmask _ (Nat.mod_lt _ (by omega))]
    rcases eq_or_ne j i with rfl | hne
    · simp
    · have hm : i % 32 ≠ j % 32 := fun hm => hne (by omega)
      simp [hne, hm, hd]
  · have hne : j ≠ i := fun hji => hd (by rw [hji])
    rw [Function.update_noteq hd]
    simp [hne]

/-- After the init marking loop, exactly frames `[0, n)` are set
(starting from the cleared bitmap). -/
lemma frame_test_set_run (fb : Nat → Nat) (n j : Nat) :
    frame_test (frame_set_run fb n) j = (decide (j < n) || frame_test fb j) := by
  induction n with
  | zero =>
    have h : decide (j < 0) = false := decide_eq_false (by omega)
    show frame_test fb j = _
    rw [h]
    simp
  | succ n ih =>
    rw [frame_set_run, frame_test_frame_set, ih, ← Bool.or_assoc]
    congr 1
    by_cases h1 : j = n
    · have hq : j < n + 1 := by omega
      simp [h1, hq]
    · by_cases h2 : j < n
      · have hq : j < n + 1 := by omega
        simp [h1, h2, hq]
      · have hq : ¬ (j < n + 1) := by omega
        simp [h1, h2, hq]

/-- On a bitmap with every frame used, the scan finds nothing. -/
lemma frame_alloc_scan_none (fb : Nat → Nat) (hall : ∀ j, frame_test fb j = true) :
    ∀ (fuel i : Nat), frame_alloc_scan fb i fuel = none := by
  intro fuel
  induction fuel with
  | zero => intro i; rfl
  | succ fuel ih =>
    intro i
    rw [frame_alloc_scan]
    by_cases hi : i < 32768
    · rw [if_pos hi, hall i]
      simpa using ih (i + 1)
    · rw [if_neg hi]

/-- C6 (amended): provided `kernel_end + 4095 < 2^32` (the uint32
rounding does not overflow), immediately after `frame_bitmap_init`
every frame `f < 32768` is marked used iff `f * 4096` lies below
`kernel_end` rounded up to a frame boundary, equivalently iff
`f < ceil(kernel_end / 4096)`; all other frames are free. -/
theorem frame_bitmap_init_spec (kernel_end f : Nat)
    (hke : kernel_end + 4095 < U32) (_hf : f < 32768) :
    (frame_test (frame_bitmap_init kernel_end) f = true
      ↔ f * 4096 < ((kernel_end + 4095) / 4096) * 4096) ∧
    (frame_test (frame_bitmap_init kernel_end) f = true
      ↔ f < (kernel_end + 4095) / 4096) := by
  have hzero : frame_test (fun _ => 0) f = false := by
    unfold frame_test
    simp
  have hmod : (kernel_end + 4095) % U32 = kernel_end + 4095 := Nat.mod_eq_of_lt hke
  have hrun : frame_test (frame_bitmap_init kernel_end) f
      = decide (f < (kernel_end + 4095) / 4096) := by
    unfold frame_bitmap_init
    rw [frame_test_set_run, hzero, Bool.or_false, hmod]
  rw [hrun]
  constructor
  · simp only [decide_eq_true_eq]
    omega
  · simp only [decide_eq_true_eq]

/-- Witness for `frame_bitmap_init_spec`: with
`kernel_end = 0x106789` the kernel occupies 263 frames, so frame 100
is marked used and frame 263 would not be. -/
theorem frame_bitmap_init_spec_witness :
    frame_test (frame_bitmap_init 1075081) 100 = true ↔ 100 < (1075081 + 4095) / 4096 :=
  (frame_bitmap_init_spec 1075081 100 (by decide) (by decide)).2

/-- C6 counterexample: with `kernel_end = 2^32 - 1` the uint32
computation of `kernel_frames` wraps to `4094 / 4096 = 0`, so no frame
is marked — in particular frame 0 is free even though
`0 * 4096 < kernel_end` rounded up (mathematically `2^32`), where the
claim requires it to be used. -/
theorem frame_bitmap_init_wrap_cex :
    frame_test (frame_bitmap_init 4294967295) 0 = false ∧
    0 * 4096 < ((4294967295 + 4095) / 4096) * 4096 := by
  constructor
  · rfl
  · norm_num

/-- C10: `frame_free` accepts every address whose frame index is below
32768 — no alignment and no kernel-region check — and clears that
frame's bit; `frame_free(0)` thus frees frame 0, after which the next
`frame_alloc` allocates frame 0 and returns physical address 0, the
same value `frame_alloc` returns on exhaustion, so the two outcomes
are indistinguishable at the interface. -/
theorem frame_free_zero_alias (fb : Nat → Nat) (addr : Nat)
    (haddr : addr < 32768 * 4096) :
    frame_free fb addr = frame_clear fb (addr / 4096) ∧
    frame_test (frame_free fb 0) 0 = false ∧
    (frame_alloc (frame_free fb 0)).2 = 0 ∧
    frame_test (frame_alloc (frame_free fb 0)).1 0 = true ∧
    (frame_alloc (fun _ => 4294967295)).2 = 0 := by
  have hfree0 : frame_free fb 0 = frame_clear fb 0 := by
    rw [frame_free, if_neg (by omega : ¬ (32768 ≤ 0 / 4096))]
  have htest0 : frame_test (frame_free fb 0) 0 = false := by
    rw [hfree0, frame_test_frame_clear]
    simp
  have hscan : frame_alloc_scan (frame_free fb 0) 0 32768 = some 0 := by
    rw [show (32768 : Nat) = 32767 + 1 from rfl, frame_alloc_scan,
      if_pos (by omega : (0 : Nat) < 32768), htest0]
    simp
  refine ⟨?_, htest0, ?_, ?_, ?_⟩
  · rw [frame_free, if_neg (by omega : ¬ (32768 ≤ addr / 4096))]
  · rw [frame_alloc, hscan]
  · rw [frame_alloc, hscan]
    show frame_test (frame_set (frame_free fb 0) 0) 0 = true
    rw [frame_test_frame_set]
    simp
  · have hall : ∀ j, frame_test (fun _ => 4294967295) j = true := by
      intro j
      unfold frame_test
      have h32 : (4294967295 : Nat) = 2 ^ 32 - 1 := by norm_num
      rw [h32, Nat.testBit_two_pow_sub_one]
      exact decide_eq_true (Nat.mod_lt _ (by omega))
    rw [frame_alloc, frame_alloc_scan_none _ hall 32768 0]

/-- Witness for `frame_free_zero_alias` on the empty bitmap at address
12345 (unaligned, inside the kernel image region). -/
theorem frame_free_zero_alias_witness :
    frame_free (fun _ => 0) 12345 = frame_clear (fun _ => 0) (12345 / 4096) ∧
    (frame_alloc (frame_free (fun _ => 0) 0)).2 = 0 :=
  ⟨(frame_free_zero_alias (fun _ => 0) 12345 (by decide)).1,
   (frame_free_zero_alias (fun _ => 0) 12345 (by decide)).2.2.1⟩

end Olympos
